import Mathlib

/-!
# Verification of the fine-tuning training-loop scripts

Shallow embedding of the language-weighted fine-tuning pipeline shared by
`ai-server/scripts/train_rust_elixir_t5.py` and
`llm-server/scripts/train_codet5.py`:

* the heuristic language classifier `detect_language_from_content`;
* the instruction augmenter `enhance_instruction_for_language`;
* the example normalizers `_format_rust_elixir` and `_format`;
* the weighted loss evaluator `calculate_weighted_loss` and the per-batch
  aggregation done in `train`;
* the per-epoch evaluation aggregation of both scripts;
* the gradient-accumulation step structure of the training loop.

Text is modelled as `List Char` (Python `str`), machine floats as exact
rationals `ℚ`, and token id sequences as `List Int`.  The tokenizer and the
per-position cross-entropy values produced by the model forward pass are
external collaborators and enter as parameters; everything the scripts
themselves compute is translated directly from the source.
-/

set_option autoImplicit false

/-! ## Python string helpers -/

/-- `pat.isPrefixOf s` on character lists: does `s` start with `pat`? -/
def startsWith : List Char → List Char → Bool
  | [], _ => true
  | _ :: _, [] => false
  | p :: ps, c :: cs => p == c && startsWith ps cs

/-- Python's substring containment `pat in s` (case-sensitive). -/
def hasSub (pat : List Char) : List Char → Bool
  | [] => startsWith pat []
  | c :: cs => startsWith pat (c :: cs) || hasSub pat cs

/-- `pat` occurs as a contiguous substring of `s` (propositional form). -/
def Occurs (pat s : List Char) : Prop := ∃ l r, s = l ++ pat ++ r

/-- Python `str.rstrip()`: drop trailing whitespace. -/
def pyRstrip (s : List Char) : List Char :=
  (s.reverse.dropWhile Char.isWhitespace).reverse

/-- Python `str.lstrip()`: drop leading whitespace. -/
def pyLstrip (s : List Char) : List Char :=
  s.dropWhile Char.isWhitespace

/-- Python `str.strip()`: drop whitespace from both ends. -/
def pyStrip (s : List Char) : List Char :=
  pyRstrip (pyLstrip s)

/-! ## Language classifier (`detect_language_from_content`) -/

def dmTok : List Char := "defmodule".toList

def defTok : List Char := "def ".toList

def pipeTok : List Char := "|>".toList

def fnTok : List Char := "fn ".toList

def structTok : List Char := "struct ".toList

def implTok : List Char := "impl ".toList

/-- `detect_language_from_content` from `train_rust_elixir_t5.py` lines
158-165: first-match-wins, case-sensitive Python substring tests. -/
def detect_language_from_content (content : List Char) : String :=
  if hasSub dmTok content || hasSub defTok content || hasSub pipeTok content then
    "elixir"
  else if hasSub fnTok content || hasSub structTok content || hasSub implTok content then
    "rust"
  else
    "unknown"

/-- Helper for `standaloneDefB`: an occurrence of `"def "` strictly inside
the text whose preceding character is whitespace. -/
def standaloneDefAux : List Char → Bool
  | [] => false
  | c :: cs => (c.isWhitespace && startsWith defTok cs) || standaloneDefAux cs

/-- The spec reading of the second elixir marker: `"def "` occurring as a
standalone token, i.e. at the start of the text or right after whitespace. -/
def standaloneDefB (t : List Char) : Bool :=
  startsWith defTok t || standaloneDefAux t

/-- The classifier as the claim words it: `"def "` only counts as a marker
when it is a standalone token, not an arbitrary substring.  This definition
follows the claim text and is compared against the source-translated
`detect_language_from_content`. -/
def detectLanguageSpec (t : List Char) : String :=
  if hasSub dmTok t || standaloneDefB t || hasSub pipeTok t then "elixir"
  else if hasSub fnTok t || hasSub structTok t || hasSub implTok t then "rust"
  else "unknown"

/-! ## Instruction augmenter (`enhance_instruction_for_language`) -/

/-- The fixed Rust guidance suffix appended by the augmenter. -/
def rustGuidance : List Char :=
  ("\n\nFollow Rust best practices: use Result/Option for error handling, " ++
   "implement proper error types, add documentation with ///, use pattern " ++
   "matching with match, and follow ownership rules.").toList

/-- The fixed Elixir guidance suffix appended by the augmenter. -/
def elixirGuidance : List Char :=
  ("\n\nFollow Elixir best practices: use pattern matching, implement proper " ++
   "error handling with \x7b:ok, result\x7d and \x7b:error, reason\x7d, add " ++
   "@doc documentation, use the pipe operator |> for data transformation, " ++
   "and follow OTP patterns.").toList

/-- `enhance_instruction_for_language` from `train_rust_elixir_t5.py` lines
168-175. -/
def enhance_instruction_for_language (instruction : List Char) (language : String) :
    List Char :=
  if language = "rust" then instruction ++ rustGuidance
  else if language = "elixir" then instruction ++ elixirGuidance
  else instruction

/-! ## Substring lemmas -/

theorem startsWith_iff (p : List Char) : ∀ s : List Char,
    startsWith p s = true ↔ ∃ r, s = p ++ r := by
  induction p with
  | nil =>
      intro s
      simp [startsWith]
  | cons p ps ih =>
      intro s
      cases s with
      | nil =>
          simp [startsWith]
      | cons c cs =>
          simp only [startsWith, Bool.and_eq_true, beq_iff_eq, ih cs]
          constructor
          · rintro ⟨rfl, r, rfl⟩
            exact ⟨r, rfl⟩
          · rintro ⟨r, hr⟩
            cases hr
            exact ⟨rfl, r, rfl⟩

theorem hasSub_iff (pat : List Char) : ∀ s : List Char,
    hasSub pat s = true ↔ Occurs pat s := by
  intro s
  induction s with
  | nil =>
      simp only [hasSub, startsWith_iff, Occurs]
      constructor
      · rintro ⟨r, hr⟩
        exact ⟨[], r, by simpa using hr⟩
      · rintro ⟨l, r, h⟩
        cases l with
        | nil => exact ⟨r, by simpa using h⟩
        | cons a l => simp at h
  | cons c cs ih =>
      simp only [hasSub, Bool.or_eq_true, startsWith_iff, ih, Occurs]
      constructor
      · rintro (⟨r, hr⟩ | ⟨l, r, hr⟩)
        · exact ⟨[], r, by simpa using hr⟩
        · exact ⟨c :: l, r, by simp [hr]⟩
      · rintro ⟨l, r, h⟩
        cases l with
        | nil => exact Or.inl ⟨r, by simpa using h⟩
        | cons a l =>
            right
            simp only [List.cons_append] at h
            cases h
            exact ⟨l, r, rfl⟩

/-! ## Claim C3: the language classifier -/

/-- C3: the classifier is a deterministic, total, side-effect-free
first-match-wins case-sensitive matcher — but against plain substring
markers.  At input `"xdef "` the source function answers `"elixir"`
(substring `"def "` occurs inside the identifier `xdef`) while the claim's
standalone-token reading answers `"unknown"`, so the claim as stated is
false at this input. -/
theorem c3_counterexample :
    ¬ (detect_language_from_content ("xdef ".toList) =
        detectLanguageSpec ("xdef ".toList)) := by
  decide

/-- C3 (amended): for every input text, `detect_language_from_content`
returns `"elixir"` exactly when one of the substrings `"defmodule"`,
`"def "` (as a plain substring, even inside a longer identifier) or `"|>"`
occurs in it; `"rust"` exactly when none of those occurs but one of
`"fn "`, `"struct "`, `"impl "` does; and `"unknown"` exactly when neither
marker family occurs.  Being a function into the three tags it is
deterministic, total and side-effect free. -/
theorem c3_detect_language_characterization (t : List Char) :
    (detect_language_from_content t = "elixir" ↔
      (Occurs dmTok t ∨ Occurs defTok t ∨ Occurs pipeTok t))
  ∧ (detect_language_from_content t = "rust" ↔
      (¬(Occurs dmTok t ∨ Occurs defTok t ∨ Occurs pipeTok t)
        ∧ (Occurs fnTok t ∨ Occurs structTok t ∨ Occurs implTok t)))
  ∧ (detect_language_from_content t = "unknown" ↔
      (¬(Occurs dmTok t ∨ Occurs defTok t ∨ Occurs pipeTok t)
        ∧ ¬(Occurs fnTok t ∨ Occurs structTok t ∨ Occurs implTok t))) := by
  simp only [← hasSub_iff]
  unfold detect_language_from_content
  cases hasSub dmTok t <;> cases hasSub defTok t <;> cases hasSub pipeTok t <;>
    cases hasSub fnTok t <;> cases hasSub structTok t <;> cases hasSub implTok t <;>
    decide

/-! ## Claim C8: the instruction augmenter -/

set_option maxRecDepth 4096 in
/-- C8: for every instruction, the augmenter returns the instruction
unchanged for the `"unknown"` tag, and for `"rust"`/`"elixir"` it returns
the instruction with the fixed language-specific guidance suffix appended,
hence the result has the original as a prefix and is strictly longer.  It
is a pure total function. -/
theorem c8_enhance_instruction_spec (instruction : List Char) :
    enhance_instruction_for_language instruction "unknown" = instruction
  ∧ enhance_instruction_for_language instruction "rust" = instruction ++ rustGuidance
  ∧ enhance_instruction_for_language instruction "elixir" = instruction ++ elixirGuidance
  ∧ instruction.length < (enhance_instruction_for_language instruction "rust").length
  ∧ instruction.length < (enhance_instruction_for_language instruction "elixir").length := by
  refine ⟨rfl, rfl, rfl, ?_, ?_⟩
  · have h : 0 < rustGuidance.length := by decide
    simp [enhance_instruction_for_language, List.length_append]
    omega
  · have h : 0 < elixirGuidance.length := by decide
    simp [enhance_instruction_for_language, List.length_append]
    omega

/-! ## Whitespace-trimming lemmas -/

theorem takeWhile_all (p : Char → Bool) (l : List Char) :
    (l.takeWhile p).all p = true := by
  induction l with
  | nil => rfl
  | cons c cs ih =>
      rw [List.takeWhile_cons]
      split
      · simp_all
      · rfl

theorem head_dropWhile_false (p : Char → Bool) :
    ∀ (l : List Char) (c : Char), (l.dropWhile p).head? = some c → p c = false := by
  intro l
  induction l with
  | nil => intro c h; simp [List.dropWhile] at h
  | cons a l ih =>
      intro c h
      rw [List.dropWhile_cons] at h
      split at h
      · exact ih c h
      · simp at h
        subst h
        simp_all

theorem pyRstrip_decomp (s : List Char) :
    ∃ w, s = pyRstrip s ++ w ∧ w.all Char.isWhitespace = true := by
  refine ⟨(s.reverse.takeWhile Char.isWhitespace).reverse, ?_, ?_⟩
  · conv_lhs => rw [← List.reverse_reverse s,
      ← List.takeWhile_append_dropWhile (p := Char.isWhitespace) (l := s.reverse)]
    rw [List.reverse_append, pyRstrip]
  · rw [List.all_eq_true]
    intro c hc
    rw [List.mem_reverse] at hc
    have := takeWhile_all Char.isWhitespace s.reverse
    rw [List.all_eq_true] at this
    exact this c hc

theorem pyRstrip_getLast (s : List Char) (c : Char) :
    (pyRstrip s).getLast? = some c → c.isWhitespace = false := by
  intro h
  rw [pyRstrip, List.getLast?_reverse] at h
  exact head_dropWhile_false Char.isWhitespace s.reverse c h

theorem pyLstrip_decomp (s : List Char) :
    ∃ w, s = w ++ pyLstrip s ∧ w.all Char.isWhitespace = true := by
  refine ⟨s.takeWhile Char.isWhitespace,
    (List.takeWhile_append_dropWhile Char.isWhitespace s).symm, ?_⟩
  exact takeWhile_all Char.isWhitespace s

theorem pyStrip_decomp (s : List Char) :
    ∃ w1 w2, s = w1 ++ pyStrip s ++ w2
      ∧ w1.all Char.isWhitespace = true ∧ w2.all Char.isWhitespace = true := by
  obtain ⟨w1, h1, hw1⟩ := pyLstrip_decomp s
  obtain ⟨w2, h2, hw2⟩ := pyRstrip_decomp (pyLstrip s)
  exact ⟨w1, w2, by rw [pyStrip, List.append_assoc, ← h2, ← h1], hw1, hw2⟩

theorem pyStrip_getLast (s : List Char) (c : Char) :
    (pyStrip s).getLast? = some c → c.isWhitespace = false :=
  pyRstrip_getLast (pyLstrip s) c

theorem pyStrip_head (s : List Char) (c : Char) :
    (pyStrip s).head? = some c → c.isWhitespace = false := by
  intro h
  obtain ⟨w, hw, _⟩ := pyRstrip_decomp (pyLstrip s)
  cases hp : pyRstrip (pyLstrip s) with
  | nil => rw [pyStrip, hp] at h; simp at h
  | cons a l =>
      rw [pyStrip, hp] at h
      simp at h
      rw [hp] at hw
      have ha : (pyLstrip s).head? = some a := by rw [hw]; rfl
      simp only [pyLstrip] at ha
      have hfa := head_dropWhile_false Char.isWhitespace s a ha
      rwa [h] at hfa

/-! ## Example normalizers (`_format_rust_elixir` and `_format`) -/

/-- A raw JSONL record: every field may be absent (`row.get(key, default)`
in the source supplies the default). -/
structure RawRow where
  instruction : Option (List Char)
  input : Option (List Char)
  output : Option (List Char)
  quality_score : Option ℚ
  deriving DecidableEq

/-- The tokenized batch entry built by `_format_rust_elixir`. -/
structure ModelInputs where
  input_ids : List Int
  labels : List Int
  language : String
  quality_score : ℚ
  deriving DecidableEq

/-- The tokenized batch entry built by `_format` in `train_codet5.py`. -/
structure CodeT5Inputs where
  input_ids : List Int
  labels : List Int
  deriving DecidableEq

/-- Line 121 of `train_rust_elixir_t5.py`:
`instruction = row.get("instruction", "").strip()`. -/
def normInstruction (row : RawRow) : List Char :=
  pyStrip (row.instruction.getD [])

/-- Line 122: `src = row.get("input", "").rstrip()`. -/
def normInput (row : RawRow) : List Char :=
  pyRstrip (row.input.getD [])

/-- Line 123: `tgt = row.get("output", "").rstrip()`. -/
def normOutput (row : RawRow) : List Char :=
  pyRstrip (row.output.getD [])

/-- Line 129: `prompt = f"{enhanced_instruction}\n\nContext: {src}\n\n### Code Output"`. -/
def buildPrompt (enhanced src : List Char) : List Char :=
  enhanced ++ ("\n\nContext: ").toList ++ src ++ ("\n\n### Code Output").toList

/-- `_format_rust_elixir` from `train_rust_elixir_t5.py` lines 120-152.
The tokenizer is an external collaborator, passed in as `tok`; its
truncation policy (`max_length`, `truncation=True`) is applied as
`List.take max_seq_len`. -/
def format_rust_elixir (tok : List Char → List Int) (max_seq_len : ℕ)
    (row : RawRow) : ModelInputs :=
  { input_ids := (tok (buildPrompt
      (enhance_instruction_for_language (normInstruction row)
        (detect_language_from_content (normOutput row)))
      (normInput row))).take max_seq_len
    labels := (tok (normOutput row)).take max_seq_len
    language := detect_language_from_content (normOutput row)
    quality_score := row.quality_score.getD 0 }

/-- `_format` from `train_codet5.py` lines 95-112, with prompt
`f"{instruction}\n\n{src}\n\n### Desired Output"`. -/
def format_codet5 (tok : List Char → List Int) (max_seq_len : ℕ)
    (row : RawRow) : CodeT5Inputs :=
  { input_ids := (tok (pyStrip (row.instruction.getD []) ++ ("\n\n").toList ++
      pyRstrip (row.input.getD []) ++ ("\n\n### Desired Output").toList)).take max_seq_len
    labels := (tok (pyRstrip (row.output.getD []))).take max_seq_len }

/-- Replace every absent field of a row by an explicitly-present default
(empty string, quality score `0`). -/
def fillDefaults (row : RawRow) : RawRow :=
  { instruction := some (row.instruction.getD [])
    input := some (row.input.getD [])
    output := some (row.output.getD [])
    quality_score := some (row.quality_score.getD 0) }

/-! ## Claim C6: whitespace trimming in the normalizer -/

/-- A row whose `input` field carries leading whitespace. -/
def c6Row : RawRow :=
  { instruction := none, input := some (" x".toList), output := none,
    quality_score := none }

/-- C6: the claim that all three of instruction, input and output are
trimmed on both sides is false: the source applies `.strip()` only to the
instruction and `.rstrip()` to input and output, so a leading space of the
`input` field survives normalization. -/
theorem c6_counterexample :
    ¬ (normInstruction c6Row = pyStrip (c6Row.instruction.getD [])
      ∧ normInput c6Row = pyStrip (c6Row.input.getD [])
      ∧ normOutput c6Row = pyStrip (c6Row.output.getD [])) := by
  decide

/-- C6 (amended): the normalizer trims the instruction on both sides and
the input and output on the trailing side only: each original field is the
normalized field surrounded by (possibly empty) all-whitespace padding, the
normalized instruction starts and ends with non-whitespace, and the
normalized input and output end with non-whitespace (a leading-whitespace
prefix of input/output is preserved, witness `c6_counterexample`). -/
theorem c6_normalizer_trimming (row : RawRow) :
    (∃ w1 w2, row.instruction.getD [] = w1 ++ normInstruction row ++ w2
        ∧ w1.all Char.isWhitespace = true ∧ w2.all Char.isWhitespace = true)
  ∧ (∃ w, row.input.getD [] = normInput row ++ w ∧ w.all Char.isWhitespace = true)
  ∧ (∃ w, row.output.getD [] = normOutput row ++ w ∧ w.all Char.isWhitespace = true)
  ∧ (∀ c, (normInstruction row).head? = some c → c.isWhitespace = false)
  ∧ (∀ c, (normInstruction row).getLast? = some c → c.isWhitespace = false)
  ∧ (∀ c, (normInput row).getLast? = some c → c.isWhitespace = false)
  ∧ (∀ c, (normOutput row).getLast? = some c → c.isWhitespace = false) :=
  ⟨pyStrip_decomp _, pyRstrip_decomp _, pyRstrip_decomp _,
    fun c => pyStrip_head _ c, fun c => pyStrip_getLast _ c,
    fun c => pyRstrip_getLast _ c, fun c => pyRstrip_getLast _ c⟩

/-- A concrete row exercising all three trimmed fields. -/
def c6wRow : RawRow :=
  { instruction := some ("  a  ".toList), input := some (" b ".toList),
    output := some ("c\n".toList), quality_score := none }

/-- C6 witness: the amended trimming property evaluated at a concrete row. -/
theorem c6_normalizer_trimming_witness :
    normInstruction c6wRow = "a".toList
  ∧ (∀ c, (normInput c6wRow).getLast? = some c → c.isWhitespace = false) :=
  ⟨by decide, (c6_normalizer_trimming c6wRow).2.2.2.2.2.1⟩

/-! ## Claim C7: missing fields do not fail -/

/-- The fully absent record. -/
def emptyRow : RawRow :=
  { instruction := none, input := none, output := none, quality_score := none }

/-- The degenerate prompt produced from an entirely absent record. -/
def degeneratePrompt : List Char := ("\n\nContext: \n\n### Code Output").toList

/-- C7: normalization is total (the embedding of `row.get(key, default)`
never fails), a record with absent fields normalizes exactly like the one
with explicit empty-string/zero fields, and even the fully absent record
still produces a (degenerate) tokenized batch entry in both scripts. -/
theorem c7_missing_fields_default (tok : List Char → List Int) (m : ℕ) (row : RawRow) :
    format_rust_elixir tok m row = format_rust_elixir tok m (fillDefaults row)
  ∧ format_codet5 tok m row = format_codet5 tok m (fillDefaults row)
  ∧ format_rust_elixir tok m emptyRow =
      { input_ids := (tok degeneratePrompt).take m
        labels := (tok []).take m
        language := "unknown"
        quality_score := 0 } := by
  refine ⟨rfl, rfl, ?_⟩
  have hp : buildPrompt
      (enhance_instruction_for_language (normInstruction emptyRow)
        (detect_language_from_content (normOutput emptyRow)))
      (normInput emptyRow) = degeneratePrompt := by decide
  have hu : detect_language_from_content (normOutput emptyRow) = "unknown" := by decide
  have hl : normOutput emptyRow = [] := rfl
  simp only [format_rust_elixir, ModelInputs.mk.injEq]
  exact ⟨by rw [hp], by rw [hl], hu, rfl⟩

/-! ## Claim C9: language classification reads only the output field -/

/-- C9: for any two raw rows with equal `output` fields, the language tag
attached by the normalizer is identical, whatever their `instruction`,
`input` and `quality_score` fields (and whatever tokenizer or length limit
is in use): the tag is `detect_language_from_content` of the rstripped
output only. -/
theorem c9_language_pure_in_output (tok1 tok2 : List Char → List Int)
    (m1 m2 : ℕ) (r1 r2 : RawRow) (h : r1.output = r2.output) :
    (format_rust_elixir tok1 m1 r1).language =
      (format_rust_elixir tok2 m2 r2).language := by
  show detect_language_from_content (normOutput r1) =
    detect_language_from_content (normOutput r2)
  rw [normOutput, normOutput, h]

def c9RowA : RawRow :=
  { instruction := some ("Make a function".toList), input := some ("abc".toList),
    output := some ("fn main() \x7b\x7d".toList), quality_score := none }

def c9RowB : RawRow :=
  { instruction := none, input := some ("xyz".toList),
    output := some ("fn main() \x7b\x7d".toList), quality_score := some 5 }

/-- C9 witness: two rows differing in instruction, input and quality score
but sharing the output get the same tag, across different tokenizers. -/
theorem c9_language_pure_in_output_witness :
    c9RowA.output = c9RowB.output
  ∧ (format_rust_elixir (fun _ => []) 8 c9RowA).language =
      (format_rust_elixir (fun s => s.map (fun _ => 0)) 4 c9RowB).language :=
  ⟨rfl, c9_language_pure_in_output _ _ _ _ _ _ rfl⟩

/-! ## Weighted loss evaluator (`calculate_weighted_loss` and `train`)

The per-position cross-entropy values produced by the model's logits are
opaque collaborator outputs: a position carries its target `label` and the
collaborator-computed token loss `tokLoss` (the negative log-softmax of the
logit row at the label, any positive rational being realizable by suitable
logits).  `CrossEntropyLoss(ignore_index=-100)` with the default mean
reduction is, per its documented contract, the sum of the per-position
losses over positions whose label is not `-100`, divided by the number of
such positions. -/

structure TokenPos where
  label : Int
  tokLoss : ℚ
  deriving DecidableEq

/-- The positions that `ignore_index=-100` keeps. -/
def validPositions (ps : List TokenPos) : List TokenPos :=
  ps.filter (fun p => p.label != -100)

/-- Mean cross-entropy over the non-ignored positions (the collaborator
`torch.nn.CrossEntropyLoss(ignore_index=-100)` applied to flattened logits
and labels). -/
def meanCE (ps : List TokenPos) : ℚ :=
  ((validPositions ps).map TokenPos.tokLoss).sum / ((validPositions ps).length : ℚ)

/-- `calculate_weighted_loss` from `train_rust_elixir_t5.py` lines 201-213:
cross-entropy of the (single-example) slice, rescaled by the language
weight. -/
def calculate_weighted_loss (positions : List TokenPos) (language : String)
    (rust_weight elixir_weight : ℚ) : ℚ :=
  let loss := meanCE positions
  if language = "rust" then loss * rust_weight
  else if language = "elixir" then loss * elixir_weight
  else loss

/-- One example of a collated batch as the training loop sees it. -/
structure BatchEntry where
  positions : List TokenPos
  language : String
  quality_score : ℚ
  deriving DecidableEq

/-- The cross-language branch of `train` (lines 285-297): per-example
weighted losses summed and divided by the number of examples. -/
def crossLanguageLoss (batch : List BatchEntry) (rust_weight elixir_weight : ℚ) : ℚ :=
  ((batch.map (fun b =>
      calculate_weighted_loss b.positions b.language rust_weight elixir_weight)).sum)
    / (batch.length : ℚ)

/-- The base case `outputs.loss` (line 299): token-level cross-entropy
pooled over the whole batch, `-100` labels excluded. -/
def batchedCE (batch : List BatchEntry) : ℚ :=
  meanCE ((batch.map BatchEntry.positions).flatten)

/-! ### Aggregation lemmas -/

theorem filterFlatten {α : Type} (p : α → Bool) (L : List (List α)) :
    L.flatten.filter p = (L.map (List.filter p)).flatten := by
  induction L with
  | nil => rfl
  | cons a L ih =>
      rw [List.flatten_cons, List.map_cons, List.flatten_cons, List.filter_append, ih]

theorem validPositions_flatten (L : List (List TokenPos)) :
    validPositions L.flatten = (L.map validPositions).flatten := by
  simp only [validPositions]
  exact filterFlatten _ L

theorem sum_map_div (l : List ℚ) (c : ℚ) :
    (l.map (fun x => x / c)).sum = l.sum / c := by
  induction l with
  | nil => simp
  | cons a l ih => simp [ih, add_div]

theorem sum_map_const_nat {α : Type} (l : List α) (n : ℕ) :
    (l.map (fun _ => n)).sum = l.length * n := by
  induction l with
  | nil => simp
  | cons a l ih => simp [ih, Nat.succ_mul, Nat.add_comm]

theorem weighted_one (b : BatchEntry) :
    calculate_weighted_loss b.positions b.language 1 1 = meanCE b.positions := by
  simp only [calculate_weighted_loss]
  split <;> simp

/-! ## Claim C1: all-ones weights versus batched cross-entropy -/

/-- A batch whose two examples have different numbers of non-ignored label
positions (one versus two). -/
def c1Batch : List BatchEntry :=
  [ { positions := [⟨5, 1⟩], language := "unknown", quality_score := 0 },
    { positions := [⟨5, 4⟩, ⟨6, 4⟩], language := "unknown", quality_score := 0 } ]

/-- C1: the claim is false as stated.  With both weights `1.0`, the
language-aware path averages per-example mean losses, the base path pools
all tokens: on `c1Batch` they give `5/2` and `3`, a 1/6 relative gap, far
beyond the claimed 1e-5 relative tolerance.  (Per-token losses `1` and `4`
are realizable by concrete logits since any positive value is a negative
log-softmax.) -/
theorem c1_counterexample :
    ¬ (|crossLanguageLoss c1Batch 1 1 - batchedCE c1Batch| ≤
        1/100000 * |batchedCE c1Batch|) := by
  have h1 : crossLanguageLoss c1Batch 1 1 = 5/2 := by
    norm_num [crossLanguageLoss, calculate_weighted_loss, meanCE, validPositions, c1Batch]
  have h2 : batchedCE c1Batch = 3 := by
    norm_num [batchedCE, meanCE, validPositions, c1Batch]
  rw [h1, h2]
  norm_num [abs_of_pos]

/-- C1 (amended): the equivalence holds exactly (hence within any
tolerance) whenever every example of the (nonempty) batch has the same
positive number of non-ignored label positions; with unequal counts it can
fail beyond the stated tolerance (`c1_counterexample`). -/
theorem c1_uniform_weights_equivalence (batch : List BatchEntry) (n : ℕ)
    (hne : batch ≠ []) (hn : 0 < n)
    (hcount : ∀ b ∈ batch, (validPositions b.positions).length = n) :
    crossLanguageLoss batch 1 1 = batchedCE batch := by
  have hmap : batch.map (fun b => calculate_weighted_loss b.positions b.language 1 1)
      = batch.map (fun b =>
          (((validPositions b.positions).map TokenPos.tokLoss).sum) / (n : ℚ)) := by
    apply List.map_congr_left
    intro b hb
    rw [weighted_one, meanCE, hcount b hb]
  have hS : batch.map (fun b =>
        (((validPositions b.positions).map TokenPos.tokLoss).sum) / (n : ℚ))
      = (batch.map (fun b =>
          ((validPositions b.positions).map TokenPos.tokLoss).sum)).map
            (fun x => x / (n : ℚ)) := by
    rw [List.map_map]
    rfl
  have hlen : ((batch.map BatchEntry.positions).map validPositions).map List.length
      = batch.map (fun _ => n) := by
    rw [List.map_map, List.map_map]
    apply List.map_congr_left
    intro b hb
    exact hcount b hb
  rw [crossLanguageLoss, hmap, hS, sum_map_div, batchedCE, meanCE, validPositions_flatten,
    List.map_flatten, List.sum_flatten, List.length_flatten, List.map_map, List.map_map, hlen,
    sum_map_const_nat, div_div]
  push_cast
  rw [mul_comm]
  congr 1
  simp [List.map_map, Function.comp_def]

/-- A batch with uniform valid-position counts (one each). -/
def c1wBatch : List BatchEntry :=
  [ { positions := [⟨3, 1⟩], language := "rust", quality_score := 0 },
    { positions := [⟨4, 3⟩], language := "elixir", quality_score := 1 } ]

/-- C1 witness: the amended equivalence at a concrete uniform-count batch. -/
theorem c1_uniform_weights_equivalence_witness :
    c1wBatch ≠ [] ∧ (0:ℕ) < 1
  ∧ crossLanguageLoss c1wBatch 1 1 = batchedCE c1wBatch :=
  ⟨by decide, by decide,
    c1_uniform_weights_equivalence c1wBatch 1 (by decide) (by decide) (by decide)⟩

/-! ## Claim C10: the quality score never reaches the loss -/

/-- Forget the quality score of a batch entry. -/
def eraseQuality (b : BatchEntry) : BatchEntry :=
  { positions := b.positions, language := b.language, quality_score := 0 }

/-- C10: two batches that agree after erasing quality scores (i.e. differ
only in `quality_score`) produce exactly the same weighted loss for any
weights: `quality_score` is carried through normalization but never read by
`calculate_weighted_loss` or the batch aggregation. -/
theorem c10_quality_score_not_read (b1 b2 : List BatchEntry)
    (rust_weight elixir_weight : ℚ)
    (h : b1.map eraseQuality = b2.map eraseQuality) :
    crossLanguageLoss b1 rust_weight elixir_weight
      = crossLanguageLoss b2 rust_weight elixir_weight := by
  have hlen : b1.length = b2.length := by
    have hl := congrArg List.length h
    simpa using hl
  have h1 : ∀ (l : List BatchEntry),
      l.map (fun b => calculate_weighted_loss b.positions b.language rust_weight elixir_weight)
        = (l.map eraseQuality).map
            (fun b => calculate_weighted_loss b.positions b.language rust_weight elixir_weight) := by
    intro l
    rw [List.map_map]
    rfl
  rw [crossLanguageLoss, crossLanguageLoss, h1 b1, h1 b2, h, hlen]

def c10BatchA : List BatchEntry :=
  [ { positions := [⟨5, 2⟩], language := "rust", quality_score := 0 } ]

def c10BatchB : List BatchEntry :=
  [ { positions := [⟨5, 2⟩], language := "rust", quality_score := 7 } ]

/-- C10 witness: two singleton batches differing only in quality score get
the same weighted loss under non-trivial weights. -/
theorem c10_quality_score_not_read_witness :
    c10BatchA.map eraseQuality = c10BatchB.map eraseQuality
  ∧ crossLanguageLoss c10BatchA 2 3 = crossLanguageLoss c10BatchB 2 3 :=
  ⟨rfl, c10_quality_score_not_read c10BatchA c10BatchB 2 3 rfl⟩

/-! ## Claim C2: evaluation over zero batches -/

/-- Per-epoch evaluation aggregation of `train_rust_elixir_t5.py` lines
317-330: `eval_loss` is the sum of batch losses, `eval_steps` the batch
count, and the script computes `avg_eval_loss = eval_loss / eval_steps`
unconditionally.  Python `/` raises `ZeroDivisionError` on a zero divisor,
so the embedding returns `Except.error` exactly when zero batches were
seen. -/
def aiServerEvalAvg (batchLosses : List ℚ) : Except String ℚ :=
  if batchLosses.length = 0 then Except.error "ZeroDivisionError"
  else Except.ok (batchLosses.sum / (batchLosses.length : ℚ))

/-- `evaluate` from `train_codet5.py` lines 220-231: losses are gathered
per batch and the mean (printed as perplexity, its exponential) is produced
only under the `if losses:` guard, so zero batches yield no report. -/
def llmServerEvalMean (batchLosses : List ℚ) : Option ℚ :=
  if batchLosses.isEmpty then none
  else some (batchLosses.sum / (batchLosses.length : ℚ))

/-- C2: the claim holds for `train_codet5.py`, whose `if losses:` guard
skips the report on an empty evaluation pass, but `train_rust_elixir_t5.py`
has no guard: with an evaluation set configured that yields zero batches it
evaluates `eval_loss / eval_steps` with `eval_steps = 0` and raises
`ZeroDivisionError` instead of skipping.  On a nonempty pass both report
the mean. -/
theorem c2_empty_eval_division :
    aiServerEvalAvg [] = Except.error "ZeroDivisionError"
  ∧ llmServerEvalMean [] = none
  ∧ aiServerEvalAvg [2, 4] = Except.ok 3
  ∧ llmServerEvalMean [2, 4] = some 3 := by
  refine ⟨rfl, rfl, ?_, ?_⟩
  · norm_num [aiServerEvalAvg]
  · norm_num [llmServerEvalMean]

/-! ## Training loop driver: accumulation, updates, logging

Both scripts drive `Accelerator(gradient_accumulation_steps=K)` with every
micro-batch inside `with accelerator.accumulate(model):`, so the optimizer
and scheduler steps written in the loop body are, per the accelerator's
documented accumulation contract, skipped except when `sync_gradients`
holds: the internal counter increments on each micro-batch of a dataloader
pass, gradients sync on every `K`-th micro-batch, a sync is forced on the
final micro-batch of the pass, and the counter resets there. -/

/-- `sync_gradients` at the 0-indexed micro-batch `s` of a pass over `N`
batches with accumulation window `K`. -/
def syncAt (N K : ℕ) (s : ℕ) : Bool := (s + 1 == N) || ((s + 1) % K == 0)

/-- Logging condition of `train_codet5.py` lines 196-201: `global_step`
counts every micro-batch across epochs and the script logs whenever
`global_step % log_every == 0` (on the main process), with no reference to
`sync_gradients`. -/
def llmLogsAt (N logEvery : ℕ) (e s : ℕ) : Bool := (e * N + s + 1) % logEvery == 0

/-- Logging condition of `train_rust_elixir_t5.py` lines 310-314: nested
inside `if accelerator.sync_gradients:` and then `if step % log_every == 0:`. -/
def aiLogsAt (N K logEvery : ℕ) (s : ℕ) : Bool := syncAt N K s && (s % logEvery == 0)

/-- One micro-batch iteration of the loop: whether it ended with an actual
optimizer update (`syncNow`) and whether the script logged in it. -/
structure TrainEvent where
  epoch : ℕ
  step : ℕ
  syncNow : Bool
  logged : Bool
  deriving DecidableEq

/-- The event sequence of a whole run: `E` epochs of `N` micro-batches. -/
def runTrace (N E : ℕ) (syncRule : ℕ → Bool) (logRule : ℕ → ℕ → Bool) : List TrainEvent :=
  (List.range E).flatMap (fun e => (List.range N).map
    (fun s => { epoch := e, step := s, syncNow := syncRule s, logged := logRule e s }))

/-- Run trace of `train_codet5.py`. -/
def llmTrace (N K E logEvery : ℕ) : List TrainEvent :=
  runTrace N E (syncAt N K) (llmLogsAt N logEvery)

/-- Run trace of `train_rust_elixir_t5.py`. -/
def aiTrace (N K E logEvery : ℕ) : List TrainEvent :=
  runTrace N E (syncAt N K) (fun _ s => aiLogsAt N K logEvery s)

/-- Number of optimizer-step transitions actually performed in a run
(logging plays no role in stepping). -/
def totalOptSteps (N K E : ℕ) : ℕ :=
  (runTrace N E (syncAt N K) (fun _ _ => false)).countP (fun ev => ev.syncNow)

/-- Optimizer-step transitions in one epoch. -/
def countSyncs (N K : ℕ) : ℕ := (List.range N).countP (fun s => syncAt N K s)

/-- `math.ceil(N / K)` on naturals (for `K > 0`). -/
def natCeilDiv (N K : ℕ) : ℕ := (N + K - 1) / K

/-- `train_codet5.py` line 165-166:
`max_train_steps = math.ceil(len(train_dl) / K) * epochs`. -/
def codet5MaxTrainSteps (N K E : ℕ) : ℕ := natCeilDiv N K * E

/-- `train_rust_elixir_t5.py` line 263:
`num_training_steps = len(train_dl) * epochs // K`. -/
def rustElixirNumTrainingSteps (N K E : ℕ) : ℕ := N * E / K

/-! ### Counting lemmas for the trace -/

theorem countP_flatMap {α β : Type} (l : List α) (f : α → List β) (p : β → Bool) :
    (l.flatMap f).countP p = (l.map (fun a => (f a).countP p)).sum := by
  induction l with
  | nil => rfl
  | cons a l ih => simp [List.flatMap_cons, List.countP_append, ih]

theorem countP_congr_mem {α : Type} (l : List α) (p q : α → Bool)
    (h : ∀ a ∈ l, p a = q a) : l.countP p = l.countP q := by
  induction l with
  | nil => rfl
  | cons a l ih =>
      rw [List.countP_cons, List.countP_cons, h a (List.mem_cons_self a l),
        ih (fun b hb => h b (List.mem_cons_of_mem a hb))]

theorem totalOptSteps_eq (N K E : ℕ) : totalOptSteps N K E = E * countSyncs N K := by
  rw [totalOptSteps, runTrace, countP_flatMap]
  have h2 : (List.range E).map (fun e => ((List.range N).map
      (fun s => TrainEvent.mk e s (syncAt N K s) false)).countP (fun ev => ev.syncNow))
      = (List.range E).map (fun _ => countSyncs N K) := by
    apply List.map_congr_left
    intro e _
    rw [List.countP_map, countSyncs]
    rfl
  rw [h2, sum_map_const_nat, List.length_range, Nat.mul_comm]

theorem countMultiples (K : ℕ) : ∀ M : ℕ,
    (List.range M).countP (fun i => (i+1) % K == 0) = M / K := by
  intro M
  induction M with
  | zero => simp
  | succ M ih =>
      rw [List.range_succ, List.countP_append, ih, Nat.succ_div]
      by_cases h : (M + 1) % K = 0
      · have hd : K ∣ M + 1 := (Nat.dvd_iff_mod_eq_zero).mpr h
        simp [List.countP_cons, h, hd]
      · have hd : ¬ K ∣ M + 1 := fun hc => h ((Nat.dvd_iff_mod_eq_zero).mp hc)
        simp [List.countP_cons, h, hd]

theorem countSyncs_eq (N K : ℕ) (hN : 0 < N) : countSyncs N K = (N - 1) / K + 1 := by
  obtain ⟨M, rfl⟩ : ∃ M, N = M + 1 := ⟨N - 1, by omega⟩
  rw [countSyncs, List.range_succ, List.countP_append]
  have h1 : (List.range M).countP (fun s => syncAt (M+1) K s)
      = (List.range M).countP (fun i => (i+1) % K == 0) := by
    apply countP_congr_mem
    intro s hs
    rw [List.mem_range] at hs
    have hne : (s + 1 == M + 1) = false := by
      simp only [beq_eq_false_iff_ne, ne_eq]
      omega
    simp [syncAt, hne]
  have h2 : List.countP (fun s => syncAt (M+1) K s) [M] = 1 := by
    simp [List.countP_cons, syncAt]
  rw [h1, h2, countMultiples]
  simp

theorem natCeilDiv_eq (N K : ℕ) (hN : 0 < N) (hK : 0 < K) :
    natCeilDiv N K = (N - 1) / K + 1 := by
  rw [natCeilDiv, (by omega : N + K - 1 = (N - 1) + K), Nat.add_div_right _ hK]

/-! ## Claim C5: optimizer-step transitions versus declared counts -/

/-- C5: the claim is false for `train_rust_elixir_t5.py`: with `N = 3`
training batches, accumulation window `K = 2` and one epoch, the loop
performs 2 optimizer updates (micro-batch 1 completes a window, the forced
end-of-pass sync adds one) while the script declares
`num_training_steps = 3 * 1 // 2 = 1`. -/
theorem c5_counterexample :
    ¬ (totalOptSteps 3 2 1 = rustElixirNumTrainingSteps 3 2 1) := by
  decide

/-- C5 (amended): for every run (`N, K, E` positive where relevant) the
training loop performs exactly `E * ceil(N / K)` optimizer-step
transitions.  This matches the per-epoch-ceiling count declared by
`train_codet5.py`; the whole-run floor `N * E // K` declared by
`train_rust_elixir_t5.py` undercounts whenever `K` does not divide `N`
(`c5_counterexample`). -/
theorem c5_optimizer_step_count (N K E : ℕ) (hN : 0 < N) (hK : 0 < K) :
    totalOptSteps N K E = E * natCeilDiv N K
  ∧ totalOptSteps N K E = codet5MaxTrainSteps N K E := by
  have h := totalOptSteps_eq N K E
  rw [countSyncs_eq N K hN, ← natCeilDiv_eq N K hN hK] at h
  exact ⟨h, by rw [h, codet5MaxTrainSteps, Nat.mul_comm]⟩

/-- C5 witness: the amended count at `N = 3`, `K = 2`, `E = 2`. -/
theorem c5_optimizer_step_count_witness :
    (0:ℕ) < 3 ∧ (0:ℕ) < 2 ∧ totalOptSteps 3 2 2 = 2 * natCeilDiv 3 2 :=
  ⟨by decide, by decide, (c5_optimizer_step_count 3 2 2 (by decide) (by decide)).1⟩

/-! ## Claim C4: logging only on optimizer-update boundaries -/

/-- C4: the claim is false for `train_codet5.py`: with `N = 2`, `K = 2`,
one epoch and `log_every = 1`, the first micro-batch (`global_step = 1`)
logs the running loss although it lies mid-accumulation (no optimizer
update happens there). -/
theorem c4_counterexample :
    ¬ (∀ ev ∈ llmTrace 2 2 1 1, ev.logged = true → ev.syncNow = true) := by
  decide

/-- C4 (amended): in `train_rust_elixir_t5.py` the guarantee holds — every
logging event of a run trace falls on a micro-batch that performs an actual
optimizer update (the log is nested under `if accelerator.sync_gradients:`)
and on the configured `log_every` interval; `train_codet5.py` instead logs
on a pure micro-batch counter and can log mid-accumulation
(`c4_counterexample`). -/
theorem c4_ai_logging_on_sync (N K E logEvery : ℕ) (ev : TrainEvent)
    (hmem : ev ∈ aiTrace N K E logEvery) (hlog : ev.logged = true) :
    ev.syncNow = true := by
  simp only [aiTrace, runTrace, List.mem_flatMap, List.mem_map] at hmem
  obtain ⟨e, _, s, _, rfl⟩ := hmem
  simp only [aiLogsAt, Bool.and_eq_true] at hlog
  exact hlog.1

/-- C4 witness: a concrete logging event of the rust/elixir trace, shown to
coincide with an optimizer update. -/
theorem c4_ai_logging_on_sync_witness :
    (⟨0, 1, true, true⟩ : TrainEvent) ∈ aiTrace 2 2 1 1
  ∧ (⟨0, 1, true, true⟩ : TrainEvent).syncNow = true :=
  ⟨by decide, c4_ai_logging_on_sync 2 2 1 1 ⟨0, 1, true, true⟩ (by decide) rfl⟩
